import Mathlib

/-!
Verification development for the memento knowledge-graph engine.

The `Demo` namespace embeds the `KnowledgeGraph` class of `demo_graph.py`
(and the structurally identical parts of `demo_graph_simple.py`); the
`Proto` namespace embeds the variant in
`prototype/kg-demo/knowledge_graph_demo.py`.

Modelling conventions: Python dicts become insertion-ordered association
lists (`List (String × α)`) with dict assignment modelled by `dictSet`;
floats become rationals; the float square root used inside cosine
similarity is passed in as a function parameter `rsqrt`; the external
embedding provider is a function `String → Except String (List ℚ)` so that
provider failure can propagate; `datetime.now()` is passed in as the
`now` argument.
-/

/-- Python dict assignment `d[k] = v`: if the key is present its value is
replaced in place (insertion-order position kept), otherwise the pair is
appended at the end. -/
def dictSet {α : Type} (k : String) (v : α) : List (String × α) → List (String × α)
  | [] => [(k, v)]
  | (k', v') :: rest => if k' = k then (k, v) :: rest else (k', v') :: dictSet k v rest

/-- Python `defaultdict(list)` hierarchy update `h[k].append(c)`: appends to the
bucket of `k` in place, creating the bucket at the end on first touch. -/
def bucketAppend (k : String) (c : String) :
    List (String × List String) → List (String × List String)
  | [] => [(k, [c])]
  | (k', l) :: rest =>
    if k' = k then (k', l ++ [c]) :: rest else (k', l) :: bucketAppend k c rest

/-- The keys of an association list, in order. -/
def dictKeys {α : Type} (d : List (String × α)) : List String := d.map (·.1)

/-- Python list slicing `l[:k]` for an `int` k, including the negative case
(`l[:-j]` drops the last `j` elements, clamped at the empty list). -/
def pySlice {α : Type} (k : ℤ) (l : List α) : List α :=
  if 0 ≤ k then l.take k.toNat else l.take ((l.length : ℤ) + k).toNat

/-- Python `int()` on a number: truncation toward zero. -/
def pyInt (q : ℚ) : ℤ := if 0 ≤ q then ⌊q⌋ else ⌈q⌉

/-- Python `round()` on a number: round half to even. -/
def pyRound (q : ℚ) : ℤ :=
  let f := ⌊q⌋
  let r := q - f
  if r < 1 / 2 then f
  else if 1 / 2 < r then f + 1
  else if f % 2 = 0 then f else f + 1

/-- Python string repetition `s * k` (a non-positive count yields `""`). -/
def pyRepeat (s : String) (k : ℤ) : String := String.join (List.replicate k.toNat s)

/-- One insertion step of Python's stable descending sort
(`l.sort(key=score, reverse=True)`): a later element is placed after every
element scoring at least as much, and before the first strictly smaller one. -/
def insertDesc {α : Type} (score : α → ℚ) (x : α) : List α → List α
  | [] => [x]
  | y :: ys => if score x ≤ score y then y :: insertDesc score x ys else x :: y :: ys

/-- Python's `list.sort(key=score, reverse=True)`: stable, descending by score. -/
def sortDesc {α : Type} (score : α → ℚ) (l : List α) : List α :=
  l.foldl (fun acc x => insertDesc score x acc) []

namespace Demo

/-- `Memento` dataclass of demo_graph.py (id, content, timestamp, embedding). -/
structure Memento where
  id : String
  content : String
  timestamp : String
  embedding : List ℚ
  deriving DecidableEq

/-- `Entity` dataclass of demo_graph.py. -/
structure Entity where
  id : String
  type : String
  name : String
  properties : List (String × String)
  source_mementos : List String
  deriving DecidableEq

/-- `Relationship` dataclass of demo_graph.py. -/
structure Relationship where
  from_entity : String
  to_entity : String
  relation_type : String
  strength : ℚ
  evidence : List String
  deriving DecidableEq

/-- The mutable state of a `KnowledgeGraph` instance (demo_graph.py):
mementos and entities are insertion-ordered dicts, relationships an
append-only list, hierarchy a `defaultdict(list)` from type to entity ids. -/
structure KnowledgeGraph where
  mementos : List (String × Memento)
  entities : List (String × Entity)
  relationships : List Relationship
  hierarchy : List (String × List String)
  deriving DecidableEq

/-- A freshly constructed `KnowledgeGraph()`. -/
def KnowledgeGraph.empty : KnowledgeGraph := ⟨[], [], [], []⟩

/-- `KnowledgeGraph.add_memento` (demo_graph.py lines 59-71): computes the id
`m<len+1>`, calls the embedding provider (whose failure propagates before any
state change), then stores the new record. -/
def add_memento (embedder : String → Except String (List ℚ)) (g : KnowledgeGraph)
    (content : String) (now : String) : Except String (KnowledgeGraph × Memento) :=
  let memento_id := "m" ++ Nat.repr (g.mementos.length + 1)
  match embedder content with
  | .error e => .error e
  | .ok embedding =>
    let memento : Memento := ⟨memento_id, content, now, embedding⟩
    .ok ({ g with mementos := dictSet memento_id memento g.mementos }, memento)

/-- `KnowledgeGraph.add_entity` (demo_graph.py lines 73-86): no validation of
`source_mementos` is performed; the entity is always stored and indexed. -/
def add_entity (g : KnowledgeGraph) (entity_type name : String)
    (properties : List (String × String)) (source_mementos : List String) :
    KnowledgeGraph × Entity :=
  let entity_id := "e" ++ Nat.repr (g.entities.length + 1) ++ "_" ++ entity_type.toLower
  let entity : Entity := ⟨entity_id, entity_type, name, properties, source_mementos⟩
  ({ g with entities := dictSet entity_id entity g.entities,
            hierarchy := bucketAppend entity_type entity_id g.hierarchy }, entity)

/-- `KnowledgeGraph.add_relationship` (demo_graph.py lines 88-98): no
validation of endpoints or evidence; the record is always appended. -/
def add_relationship (g : KnowledgeGraph) (from_id to_id relation : String)
    (strength : ℚ) (evidence : List String) : KnowledgeGraph × Relationship :=
  let rel : Relationship := ⟨from_id, to_id, relation, strength, evidence⟩
  ({ g with relationships := g.relationships ++ [rel] }, rel)

/-- `sum(a * b for a, b in zip(u, v))`. -/
def dotProd (u v : List ℚ) : ℚ := (List.zip u v).foldl (fun s p => s + p.1 * p.2) 0

/-- `sum(a * a for a in v)`. -/
def sumSq (v : List ℚ) : ℚ := v.foldl (fun s a => s + a * a) 0

/-- Cosine similarity as computed in `find_similar_mementos`; the float
`** 0.5` is the supplied `rsqrt`.  (Python would raise ZeroDivisionError on a
zero denominator; rational division yields 0 there — none of the proved
properties depend on the value.) -/
def cosineSim (rsqrt : ℚ → ℚ) (qe me : List ℚ) : ℚ :=
  dotProd qe me / (rsqrt (sumSq qe) * rsqrt (sumSq me))

/-- The `similarities` list built by `find_similar_mementos`: one scored pair
per stored memento, in insertion order. -/
def simList (rsqrt : ℚ → ℚ) (qe : List ℚ) (g : KnowledgeGraph) : List (Memento × ℚ) :=
  g.mementos.map (fun p => (p.2, cosineSim rsqrt qe p.2.embedding))

/-- `KnowledgeGraph.find_similar_mementos` (demo_graph.py lines 100-114):
embed the query, score every memento, stable-sort descending by score and
return the slice `[:top_k]`. -/
def find_similar_mementos (embedder : String → Except String (List ℚ)) (rsqrt : ℚ → ℚ)
    (g : KnowledgeGraph) (query : String) (top_k : ℤ) :
    Except String (List (Memento × ℚ)) :=
  match embedder query with
  | .error e => .error e
  | .ok query_emb =>
    .ok (pySlice top_k (sortDesc (fun p => p.2) (simList rsqrt query_emb g)))

/-- `strength_bar = "█" * int(rel.strength * 10)` (demo_graph_simple.py line
150; demo_graph.py line 147 is identical). -/
def strength_bar (s : ℚ) : String := pyRepeat "█" (pyInt (s * 10))

/-- `empty_bar = "░" * (10 - int(rel.strength * 10))` (demo_graph_simple.py
line 151). -/
def empty_bar (s : ℚ) : String := pyRepeat "░" (10 - pyInt (s * 10))

/-- The average-connections-per-entity statistic of
`KnowledgeGraph.visualize` (demo_graph_simple.py line 166):
`len(self.relationships) / len(self.entities)` with no guard, so an empty
entity dict raises ZeroDivisionError. -/
def avgConnections (g : KnowledgeGraph) : Except String ℚ :=
  if g.entities.length = 0 then .error "ZeroDivisionError"
  else .ok ((g.relationships.length : ℚ) / (g.entities.length : ℚ))

/-- A sequence of `add_memento` calls, stopping (as the Python caller would)
if the provider raises. -/
def runAdds (embedder : String → Except String (List ℚ)) :
    KnowledgeGraph → List (String × String) → Option KnowledgeGraph
  | g, [] => some g
  | g, (c, t) :: rest =>
    match add_memento embedder g c t with
    | .ok (g', _) => runAdds embedder g' rest
    | .error _ => none

end Demo

namespace Proto

/-- `Memento` dataclass of prototype/kg-demo/knowledge_graph_demo.py. -/
structure Memento where
  id : String
  content : String
  timestamp : String
  source : String
  deriving DecidableEq

/-- `Entity` dataclass of the prototype (with scale and extracted_from). -/
structure Entity where
  id : String
  name : String
  type : String
  properties : List (String × String)
  scale : String
  extracted_from : List String
  deriving DecidableEq

/-- `Relationship` dataclass of the prototype. -/
structure Relationship where
  source : String
  target : String
  type : String
  properties : List (String × String)
  extracted_from : List String
  deriving DecidableEq

/-- State of the prototype `KnowledgeGraph`: mementos are a plain list,
entities an insertion-ordered dict keyed by `entity.id`, relationships an
append-only list, hierarchy a `defaultdict(list)`. -/
structure KnowledgeGraph where
  mementos : List Memento
  entities : List (String × Entity)
  relationships : List Relationship
  hierarchy : List (String × List String)
  deriving DecidableEq

/-- A freshly constructed prototype `KnowledgeGraph()`. -/
def KnowledgeGraph.empty : KnowledgeGraph := ⟨[], [], [], []⟩

/-- `add_memento` (prototype): appends the given record. -/
def add_memento (g : KnowledgeGraph) (m : Memento) : KnowledgeGraph :=
  { g with mementos := g.mementos ++ [m] }

/-- `add_entity` (prototype): `self.entities[entity.id] = entity`. -/
def add_entity (g : KnowledgeGraph) (e : Entity) : KnowledgeGraph :=
  { g with entities := dictSet e.id e g.entities }

/-- `add_relationship` (prototype): appends the given record. -/
def add_relationship (g : KnowledgeGraph) (r : Relationship) : KnowledgeGraph :=
  { g with relationships := g.relationships ++ [r] }

/-- `add_hierarchy` (prototype): `self.hierarchy[parent].append(child)`. -/
def add_hierarchy (g : KnowledgeGraph) (parent child : String) : KnowledgeGraph :=
  { g with hierarchy := bucketAppend parent child g.hierarchy }

/-- `defaultdict(int)` counting bump `counts[k] += 1`. -/
def countBump (k : String) : List (String × ℕ) → List (String × ℕ)
  | [] => [(k, 1)]
  | (k', n) :: rest => if k' = k then (k', n + 1) :: rest else (k', n) :: countBump k rest

/-- `_count_by_type` / `_count_by_scale`: counts over `entities.values()`,
keyed in first-occurrence order. -/
def countBy (f : Entity → String) (es : List Entity) : List (String × ℕ) :=
  es.foldl (fun d e => countBump (f e) d) []

/-- The statistics block of `to_json`. -/
structure Statistics where
  total_mementos : ℕ
  total_entities : ℕ
  total_relationships : ℕ
  entities_by_type : List (String × ℕ)
  entities_by_scale : List (String × ℕ)
  deriving DecidableEq

/-- The document produced by `to_json` (prototype lines 178-192), as the
parsed value: `json.dumps` with a fixed indent is a deterministic injective
serializer, so two stores render byte-identical text iff their documents are
equal. -/
structure ExportDoc where
  mementos : List Memento
  entities : List Entity
  relationships : List Relationship
  hierarchy : List (String × List String)
  statistics : Statistics
  deriving DecidableEq

/-- `to_json` (prototype): full collections plus recomputed statistics. -/
def to_json (g : KnowledgeGraph) : ExportDoc :=
  { mementos := g.mementos
    entities := g.entities.map (·.2)
    relationships := g.relationships
    hierarchy := g.hierarchy
    statistics :=
      { total_mementos := g.mementos.length
        total_entities := g.entities.length
        total_relationships := g.relationships.length
        entities_by_type := countBy (fun e => e.type) (g.entities.map (·.2))
        entities_by_scale := countBy (fun e => e.scale) (g.entities.map (·.2)) } }

/-- Modelled from the spec: re-ingesting the parsed export data into a fresh
store.  The source repository has no import routine, so — per the spec's
round-trip property — each exported record is re-added to a fresh store
through the construction API (`add_memento`, `add_entity`,
`add_relationship`, `add_hierarchy`), in export order. -/
def ingest (d : ExportDoc) : KnowledgeGraph :=
  let g1 := d.mementos.foldl add_memento KnowledgeGraph.empty
  let g2 := d.entities.foldl add_entity g1
  let g3 := d.relationships.foldl add_relationship g2
  d.hierarchy.foldl (fun g p => p.2.foldl (fun g c => add_hierarchy g p.1 c) g) g3

/-- `content.replace('"', '\\"')` as used on memento content in
`to_neo4j_cypher`. -/
def escapeQuotes (s : String) : String :=
  ⟨s.data.foldr (fun c acc => if c = '"' then '\\' :: '"' :: acc else c :: acc) []⟩

/-- `rel.type.upper().replace(" ", "_")`. -/
def upperUnderscore (s : String) : String :=
  ⟨s.toUpper.data.map (fun c => if c = ' ' then '_' else c)⟩

/-- `", ".join(f-string k: "v" pairs)`: property bags are rendered with raw,
unescaped values. -/
def propsRender (ps : List (String × String)) : String :=
  String.intercalate ", " (ps.map (fun kv => kv.1 ++ ": \"" ++ kv.2 ++ "\""))

/-- The block of Cypher lines emitted for one memento: content is escaped. -/
def mementoLines (m : Memento) : List String :=
  ["CREATE (:" ++ m.id ++ ":Memento \x7b",
   "  id: \"" ++ m.id ++ "\",",
   "  content: \"" ++ escapeQuotes m.content ++ "\",",
   "  timestamp: datetime(\"" ++ m.timestamp ++ "\"),",
   "  source: \"" ++ m.source ++ "\"",
   "\x7d);"]

/-- The block of Cypher lines emitted for one entity: property values are
inlined raw (no quote escaping). -/
def entityLines (e : Entity) : List String :=
  ["CREATE (:" ++ e.id ++ ":" ++ e.type ++ " \x7b",
   "  id: \"" ++ e.id ++ "\",",
   "  name: \"" ++ e.name ++ "\",",
   "  scale: \"" ++ e.scale ++ "\",",
   "  " ++ propsRender e.properties,
   "\x7d);"]

/-- The Cypher lines emitted for one relationship (raw property values). -/
def relLines (r : Relationship) : List String :=
  let props := propsRender r.properties
  let props_str := if props = "" then "" else " \x7b" ++ props ++ "\x7d"
  ["MATCH (s:" ++ r.source ++ "), (t:" ++ r.target ++ ")",
   "CREATE (s)-[:" ++ upperUnderscore r.type ++ props_str ++ "]->(t);"]

/-- The memento-to-entity extraction edges for one entity. -/
def extractionLines (e : Entity) : List String :=
  e.extracted_from.flatMap (fun mid =>
    ["MATCH (m:" ++ mid ++ "), (e:" ++ e.id ++ ")",
     "CREATE (m)-[:EXTRACTED_TO]->(e);"])

/-- The `lines` list built by `to_neo4j_cypher` (prototype lines 131-176). -/
def cypherLines (g : KnowledgeGraph) : List String :=
  ["// Knowledge Graph Demo - Neo4j Cypher Script", "",
   "// Clean slate", "MATCH (n) DETACH DELETE n;", "",
   "// ============ RAW MEMENTOS ============"]
  ++ g.mementos.flatMap mementoLines
  ++ ["", "// ============ ENTITIES ============"]
  ++ (g.entities.map (·.2)).flatMap entityLines
  ++ ["", "// ============ RELATIONSHIPS ============"]
  ++ g.relationships.flatMap relLines
  ++ ["", "// ============ MEMENTO -> ENTITY EXTRACTION ============"]
  ++ (g.entities.map (·.2)).flatMap extractionLines

/-- `to_neo4j_cypher`: the lines joined with newlines. -/
def to_neo4j_cypher (g : KnowledgeGraph) : String :=
  String.intercalate "\n" (cypherLines g)

end Proto

/-- Concrete fixture: a memento whose embedding is the one-dimensional
vector `[1]`. -/
def wm1 : Demo.Memento := ⟨"m1", "alpha", "t1", [1]⟩

/-- Concrete fixture: a second memento with the same embedding `[1]`, so
that both score identically against any query. -/
def wm2 : Demo.Memento := ⟨"m2", "beta", "t2", [1]⟩

/-- Concrete fixture: a store holding `wm1` then `wm2`. -/
def wGraph : Demo.KnowledgeGraph := ⟨[("m1", wm1), ("m2", wm2)], [], [], []⟩

/-- The base-10 digits of a natural number, most significant first; used to
reason about the decimal ids produced by `Nat.repr`. -/
def natDigits (n : ℕ) : List ℕ :=
  if n < 10 then [n]
  else natDigits (n / 10) ++ [n % 10]
termination_by n
decreasing_by
  exact Nat.div_lt_self (by omega) (by norm_num)

/-- Concrete fixture: a prototype memento whose content contains a double
quote. -/
def wqMemento : Proto.Memento := ⟨"m001", "has \"quote\"", "ts", "conversation"⟩

/-- Concrete fixture: a prototype entity whose property value contains a
double quote. -/
def wqEntity : Proto.Entity :=
  ⟨"e1", "Widget", "Thing", [("note", "say \"hi\"")], "atomic", ["m001"]⟩

/-- Concrete fixture: a prototype store holding `wqMemento` and `wqEntity`. -/
def wqGraph : Proto.KnowledgeGraph :=
  ⟨[wqMemento], [("e1", wqEntity)], [], []⟩

/-- Concrete fixture: a prototype relationship for the round-trip witness. -/
def wpRel : Proto.Relationship := ⟨"e1", "e1", "self", [("weight", "1")], ["m001"]⟩

/-- Concrete fixture: a populated prototype store (memento, entity,
relationship and one hierarchy bucket) for the round-trip witness. -/
def wpGraph : Proto.KnowledgeGraph :=
  ⟨[wqMemento], [("e1", wqEntity)], [wpRel], [("Thing", ["e1"])]⟩

theorem dictSet_val_mem {α : Type} (k : String) (v : α) (d : List (String × α)) :
    v ∈ (dictSet k v d).map Prod.snd := by
  induction d with
  | nil => simp [dictSet]
  | cons hd tl ih =>
    by_cases h : hd.1 = k
    · simp [dictSet, h]
    · simp only [dictSet, h, if_false, List.map_cons, List.mem_cons]
      exact Or.inr ih

theorem pySlice_nil {α : Type} (k : ℤ) : pySlice k ([] : List α) = [] := by
  simp [pySlice]

theorem foldl_append_length (l : List String) (acc : String) :
    ((l.foldl (fun r s => r ++ s) acc)).length = acc.length + (l.map String.length).sum := by
  induction l generalizing acc with
  | nil => simp
  | cons hd tl ih => simp [ih, String.length_append]; omega

theorem pyRepeat_length (s : String) (k : ℤ) :
    (pyRepeat s k).length = k.toNat * s.length := by
  have h : ∀ n : ℕ, (String.join (List.replicate n s)).length = n * s.length := by
    intro n
    rw [String.join, foldl_append_length]
    simp [List.map_replicate, List.sum_replicate, smul_eq_mul]
  exact h k.toNat

section StableSort

variable {α : Type} (score : α → ℚ)

theorem insertDesc_perm (x : α) (l : List α) : List.Perm (insertDesc score x l) (x :: l) := by
  induction l with
  | nil => exact List.Perm.refl _
  | cons y ys ih =>
    by_cases h : score x ≤ score y
    · simp only [insertDesc, if_pos h]
      exact (List.Perm.cons y ih).trans (List.Perm.swap x y ys)
    · simp only [insertDesc, if_neg h]
      exact List.Perm.refl _

theorem insertDesc_mem {x a : α} {l : List α} (h : a ∈ insertDesc score x l) :
    a = x ∨ a ∈ l := by
  have := (insertDesc_perm score x l).mem_iff.mp h
  simpa using this

theorem insertDesc_sorted {x : α} {l : List α}
    (h : List.Sorted (fun a b => score b ≤ score a) l) :
    List.Sorted (fun a b => score b ≤ score a) (insertDesc score x l) := by
  induction l with
  | nil => simp [insertDesc]
  | cons y ys ih =>
    rw [List.sorted_cons] at h
    obtain ⟨hy, hys⟩ := h
    by_cases hxy : score x ≤ score y
    · simp only [insertDesc, if_pos hxy]
      rw [List.sorted_cons]
      refine ⟨?_, ih hys⟩
      intro b hb
      rcases insertDesc_mem score hb with rfl | hb
      · exact hxy
      · exact hy b hb
    · have hlt : score y < score x := not_le.mp hxy
      simp only [insertDesc, if_neg hxy]
      rw [List.sorted_cons]
      constructor
      · intro b hb
        rcases List.mem_cons.mp hb with rfl | hb
        · exact le_of_lt hlt
        · exact le_trans (hy b hb) (le_of_lt hlt)
      · exact List.sorted_cons.mpr ⟨hy, hys⟩

theorem insertDesc_filter (s : ℚ) {x : α} {l : List α}
    (h : List.Sorted (fun a b => score b ≤ score a) l) :
    (insertDesc score x l).filter (fun a => decide (score a = s)) =
      (if score x = s then
        l.filter (fun a => decide (score a = s)) ++ [x]
      else l.filter (fun a => decide (score a = s))) := by
  induction l with
  | nil =>
    by_cases hx : score x = s <;> simp [insertDesc, hx]
  | cons y ys ih =>
    rw [List.sorted_cons] at h
    obtain ⟨hy, hys⟩ := h
    by_cases hxy : score x ≤ score y
    · simp only [insertDesc, if_pos hxy, List.filter_cons, ih hys]
      by_cases hx : score x = s <;> by_cases hyv : score y = s <;> simp [hx, hyv]
    · have hlt : score y < score x := not_le.mp hxy
      simp only [insertDesc, if_neg hxy]
      by_cases hx : score x = s
      · have hnil : (y :: ys).filter (fun a => decide (score a = s)) = [] := by
          rw [List.filter_eq_nil_iff]
          intro a ha
          have hle : score a ≤ score y := by
            rcases List.mem_cons.mp ha with rfl | ha
            · exact le_refl _
            · exact hy a ha
          have : score a < s := lt_of_le_of_lt hle (hx ▸ hlt)
          simp [ne_of_lt this]
        rw [List.filter_cons, hnil]
        simp [hx]
      · rw [List.filter_cons]
        simp [hx]

theorem sortDesc_go_sorted (l acc : List α)
    (hacc : List.Sorted (fun a b => score b ≤ score a) acc) :
    List.Sorted (fun a b => score b ≤ score a)
      (l.foldl (fun a x => insertDesc score x a) acc) := by
  induction l generalizing acc with
  | nil => simpa using hacc
  | cons x xs ih => exact ih _ (insertDesc_sorted score hacc)

theorem sortDesc_sorted (l : List α) :
    List.Sorted (fun a b => score b ≤ score a) (sortDesc score l) :=
  sortDesc_go_sorted score l [] (by simp)

theorem sortDesc_go_filter (s : ℚ) (l : List α) : ∀ acc : List α,
    List.Sorted (fun a b => score b ≤ score a) acc →
    (l.foldl (fun a x => insertDesc score x a) acc).filter (fun a => decide (score a = s)) =
      acc.filter (fun a => decide (score a = s)) ++
        l.filter (fun a => decide (score a = s)) := by
  induction l with
  | nil => intro acc hacc; simp
  | cons x xs ih =>
    intro acc hacc
    rw [List.foldl_cons, ih _ (insertDesc_sorted score hacc), insertDesc_filter score s hacc,
      List.filter_cons]
    by_cases hx : score x = s <;> simp [hx]

theorem sortDesc_filter (s : ℚ) (l : List α) :
    (sortDesc score l).filter (fun a => decide (score a = s)) =
      l.filter (fun a => decide (score a = s)) := by
  have h := sortDesc_go_filter score s l [] (by simp)
  simpa [sortDesc] using h

theorem sortDesc_go_perm (l : List α) : ∀ acc : List α,
    List.Perm (l.foldl (fun a x => insertDesc score x a) acc) (acc ++ l) := by
  induction l with
  | nil => intro acc; simp
  | cons x xs ih =>
    intro acc
    rw [List.foldl_cons]
    exact (ih _).trans
      ((List.Perm.append_right xs (insertDesc_perm score x acc)).trans List.perm_middle.symm)

theorem sortDesc_perm (l : List α) : List.Perm (sortDesc score l) l := by
  have h := sortDesc_go_perm score l []
  simpa [sortDesc] using h

theorem sortDesc_length (l : List α) : (sortDesc score l).length = l.length :=
  (sortDesc_perm score l).length_eq

end StableSort

/-- C1 counterexample: on the empty store, `add_entity` with the unknown
source-memento id `"m99"` and `add_relationship` with unknown endpoints and
unknown evidence both mutate the store instead of failing with a
`ReferentialError` (no such error exists in the code). -/
theorem c1_counterexample :
    "m99" ∉ dictKeys Demo.KnowledgeGraph.empty.mementos ∧
    (Demo.add_entity Demo.KnowledgeGraph.empty "Person" "Alice" [] ["m99"]).1 ≠
      Demo.KnowledgeGraph.empty ∧
    "e1" ∉ dictKeys Demo.KnowledgeGraph.empty.entities ∧
    (Demo.add_relationship Demo.KnowledgeGraph.empty "e1" "e2" "KNOWS" 1 ["m99"]).1 ≠
      Demo.KnowledgeGraph.empty := by
  refine ⟨by decide, ?_, by decide, ?_⟩
  · intro h
    have := congrArg Demo.KnowledgeGraph.entities h
    simp [Demo.add_entity, dictSet, Demo.KnowledgeGraph.empty] at this
  · intro h
    have := congrArg Demo.KnowledgeGraph.relationships h
    simp [Demo.add_relationship, Demo.KnowledgeGraph.empty] at this

/-- C1 amended: `add_entity` and `add_relationship` perform no referential
validation.  A call in which some referenced id (source memento for
`add_entity`; endpoint entity for `add_relationship`) is absent from the
store still succeeds: the entity is stored (and bucketed) and the
relationship is appended — nothing fails and no `ReferentialError` exists. -/
theorem c1_amended (g : Demo.KnowledgeGraph) (t n : String)
    (props : List (String × String)) (srcs : List String)
    (from_id to_id rel : String) (s : ℚ) (ev : List String)
    (hsrc : ∃ x ∈ srcs, x ∉ dictKeys g.mementos)
    (hfrom : from_id ∉ dictKeys g.entities) :
    (Demo.add_entity g t n props srcs).2 ∈
      ((Demo.add_entity g t n props srcs).1.entities.map Prod.snd) ∧
    (Demo.add_relationship g from_id to_id rel s ev).1.relationships =
      g.relationships ++ [(Demo.add_relationship g from_id to_id rel s ev).2] := by
  constructor
  · exact dictSet_val_mem _ _ _
  · rfl

/-- C1 witness: the amended statement holds at the concrete counterexample
inputs. -/
theorem c1_amended_witness :
    (Demo.add_entity Demo.KnowledgeGraph.empty "Person" "Alice" [] ["m99"]).2 ∈
      ((Demo.add_entity Demo.KnowledgeGraph.empty "Person" "Alice" [] ["m99"]).1.entities.map
        Prod.snd) ∧
    (Demo.add_relationship Demo.KnowledgeGraph.empty "e1" "e2" "KNOWS" 1 ["m99"]).1.relationships =
      Demo.KnowledgeGraph.empty.relationships ++
        [(Demo.add_relationship Demo.KnowledgeGraph.empty "e1" "e2" "KNOWS" 1 ["m99"]).2] :=
  c1_amended Demo.KnowledgeGraph.empty "Person" "Alice" [] ["m99"] "e1" "e2" "KNOWS" 1 ["m99"]
    ⟨"m99", by decide, by decide⟩ (by decide)

/-- C2 counterexample: on the empty store (no memento carries an embedding)
`find_similar_mementos` returns the ordinary value `.ok []` — it does not
fail, and no `EmptyCorpusError` exists in the code. -/
theorem c2_counterexample :
    Demo.KnowledgeGraph.empty.mementos = [] ∧
    Demo.find_similar_mementos (fun _ => .ok [1]) id Demo.KnowledgeGraph.empty "query" 5 =
      .ok [] := by
  exact ⟨rfl, rfl⟩

/-- C2 amended: on every store holding no mementos, `find_similar_mementos`
returns `.ok []` for every query and every `top_k` (provided the provider
itself succeeds); an empty corpus is therefore indistinguishable from
`top_k = 0` by the result alone. -/
theorem c2_amended (embedder : String → Except String (List ℚ)) (rsqrt : ℚ → ℚ)
    (g : Demo.KnowledgeGraph) (query : String) (k : ℤ) (qe : List ℚ)
    (hm : g.mementos = []) (he : embedder query = .ok qe) :
    Demo.find_similar_mementos embedder rsqrt g query k = .ok [] := by
  simp [Demo.find_similar_mementos, he, Demo.simList, hm, sortDesc, pySlice_nil]

/-- C2 witness: the amended statement holds at a concrete store and query. -/
theorem c2_amended_witness :
    Demo.find_similar_mementos (fun _ => .ok [1]) id Demo.KnowledgeGraph.empty "query" 7 =
      .ok [] :=
  c2_amended (fun _ => .ok [1]) id Demo.KnowledgeGraph.empty "query" 7 [1] rfl rfl

/-- C7 counterexample: at strength 0.95 (used by the demo itself) the bar
holds `int(0.95 * 10) = 9` filled glyphs while `round(0.95 * 10) = 10`, so
the number of filled glyphs is not `round(strength * 10)`. -/
theorem c7_counterexample :
    ((Demo.strength_bar (19 / 20)).length : ℤ) ≠ pyRound ((19 / 20 : ℚ) * 10) ∧
    (Demo.strength_bar (19 / 20)).length = 9 ∧ pyRound ((19 / 20 : ℚ) * 10) = 10 := by
  have hq : ((19 / 20 : ℚ) * 10) = 19 / 2 := by norm_num
  have hf : ⌊(19 / 2 : ℚ)⌋ = 9 := by norm_num
  have hi : pyInt ((19 / 20 : ℚ) * 10) = 9 := by
    rw [pyInt, hq, if_pos (by norm_num : (0 : ℚ) ≤ 19 / 2), hf]
  have hr : pyRound ((19 / 20 : ℚ) * 10) = 10 := by
    rw [pyRound, hq]
    simp only [hf]
    norm_num
  have hlen : (Demo.strength_bar (19 / 20)).length = 9 := by
    rw [Demo.strength_bar, pyRepeat_length, hi]
    rfl
  exact ⟨by rw [hlen, hr]; decide, hlen, hr⟩

/-- C7 amended: for strengths in the intended range the number of filled
glyphs equals `int(strength * 10)` — truncation, not rounding — and filled
plus unfilled glyphs total 10. -/
theorem c7_amended (s : ℚ) (h0 : 0 ≤ s) (h1 : s ≤ 1) :
    ((Demo.strength_bar s).length : ℤ) = pyInt (s * 10) ∧
    (Demo.strength_bar s).length + (Demo.empty_bar s).length = 10 := by
  have hnn : (0 : ℚ) ≤ s * 10 := by positivity
  have hint : pyInt (s * 10) = ⌊s * 10⌋ := by simp [pyInt, hnn]
  have hfl0 : 0 ≤ ⌊s * 10⌋ := Int.floor_nonneg.mpr hnn
  have hfl10 : ⌊s * 10⌋ ≤ 10 := by
    have h10 : s * 10 ≤ 10 := by nlinarith
    calc ⌊s * 10⌋ ≤ ⌊(10 : ℚ)⌋ := Int.floor_le_floor h10
    _ = 10 := by norm_num
  have hlen1 : (Demo.strength_bar s).length = (pyInt (s * 10)).toNat := by
    simp [Demo.strength_bar, pyRepeat_length, show "█".length = 1 from rfl]
  have hlen2 : (Demo.empty_bar s).length = (10 - pyInt (s * 10)).toNat := by
    simp [Demo.empty_bar, pyRepeat_length, show "░".length = 1 from rfl]
  rw [hlen1, hlen2, hint]
  omega

/-- C7 witness: the amended statement holds at the concrete strength 0.7. -/
theorem c7_amended_witness :
    ((Demo.strength_bar (7 / 10)).length : ℤ) = pyInt ((7 / 10 : ℚ) * 10) ∧
    (Demo.strength_bar (7 / 10)).length + (Demo.empty_bar (7 / 10)).length = 10 :=
  c7_amended (7 / 10) (by norm_num) (by norm_num)

/-- C8: the average-connections statistic of `visualize` divides by
`len(self.entities)` with no guard, so on a store with an empty entity set
the code raises ZeroDivisionError instead of producing the specified 0.0. -/
theorem c8_zero_division :
    Demo.avgConnections Demo.KnowledgeGraph.empty = .error "ZeroDivisionError" := rfl

/-- C10: `add_memento` computes the embedding before creating or storing any
record: a provider failure propagates unchanged and no new store state is
produced, and any later successful call on the same store is assigned
exactly the id `m<len+1>` the failed call would have received. -/
theorem c10_atomic (embedder : String → Except String (List ℚ)) (g : Demo.KnowledgeGraph)
    (content now err : String) (h : embedder content = .error err) :
    Demo.add_memento embedder g content now = .error err ∧
    ∀ (embedder2 : String → Except String (List ℚ)) (c2 t2 : String) (qe : List ℚ),
      embedder2 c2 = .ok qe →
      ∃ (g2 : Demo.KnowledgeGraph) (m : Demo.Memento),
        Demo.add_memento embedder2 g c2 t2 = .ok (g2, m) ∧
        m.id = "m" ++ Nat.repr (g.mementos.length + 1) := by
  constructor
  · simp [Demo.add_memento, h]
  · intro embedder2 c2 t2 qe h2
    simp only [Demo.add_memento, h2]
    exact ⟨_, _, rfl, rfl⟩

/-- C10 witness: the statement holds at a concrete failing provider and a
concrete store. -/
theorem c10_atomic_witness :
    Demo.add_memento (fun _ => .error "model failure") Demo.KnowledgeGraph.empty "x" "t" =
      .error "model failure" ∧
    ∀ (embedder2 : String → Except String (List ℚ)) (c2 t2 : String) (qe : List ℚ),
      embedder2 c2 = .ok qe →
      ∃ (g2 : Demo.KnowledgeGraph) (m : Demo.Memento),
        Demo.add_memento embedder2 Demo.KnowledgeGraph.empty c2 t2 = .ok (g2, m) ∧
        m.id = "m" ++ Nat.repr (Demo.KnowledgeGraph.empty.mementos.length + 1) :=
  c10_atomic (fun _ => .error "model failure") Demo.KnowledgeGraph.empty "x" "t"
    "model failure" rfl

theorem pySlice_sublist {α : Type} (k : ℤ) (l : List α) : List.Sublist (pySlice k l) l := by
  unfold pySlice
  split <;> exact List.take_sublist _ _

/-- C3: every result list of `find_similar_mementos` is sorted by
non-increasing score, and entries of equal score keep the insertion order of
their mementos: for every score value, the equal-score entries of the result
are a sublist of the scored list taken in store insertion order. -/
theorem c3_sorted_stable (embedder : String → Except String (List ℚ)) (rsqrt : ℚ → ℚ)
    (g : Demo.KnowledgeGraph) (query : String) (k : ℤ) (qe : List ℚ)
    (res : List (Demo.Memento × ℚ))
    (hq : embedder query = .ok qe)
    (hr : Demo.find_similar_mementos embedder rsqrt g query k = .ok res) :
    List.Sorted (fun a b => b.2 ≤ a.2) res ∧
    ∀ s : ℚ, List.Sublist
      (res.filter (fun p => decide (p.2 = s)))
      ((Demo.simList rsqrt qe g).filter (fun p => decide (p.2 = s))) := by
  simp only [Demo.find_similar_mementos, hq, Except.ok.injEq] at hr
  subst hr
  constructor
  · exact List.Pairwise.sublist (pySlice_sublist _ _)
      (sortDesc_sorted (fun p : Demo.Memento × ℚ => p.2) (Demo.simList rsqrt qe g))
  · intro s
    have hsub := List.Sublist.filter (fun p : Demo.Memento × ℚ => decide (p.2 = s))
      (pySlice_sublist k (sortDesc (fun p : Demo.Memento × ℚ => p.2) (Demo.simList rsqrt qe g)))
    have heq := sortDesc_filter (fun p : Demo.Memento × ℚ => p.2) s (Demo.simList rsqrt qe g)
    rw [heq] at hsub
    exact hsub

/-- C3 witness: the statement holds at a concrete store of two mementos with
tied scores; the result keeps their insertion order. -/
theorem c3_sorted_stable_witness :
    List.Sorted (fun a b => b.2 ≤ a.2) [(wm1, (1 : ℚ)), (wm2, 1)] ∧
    ∀ s : ℚ, List.Sublist
      (([(wm1, (1 : ℚ)), (wm2, 1)]).filter (fun p => decide (p.2 = s)))
      ((Demo.simList id [1] wGraph).filter (fun p => decide (p.2 = s))) :=
  c3_sorted_stable (fun _ => .ok [1]) id wGraph "q" 5 [1] [(wm1, 1), (wm2, 1)] rfl
    (by norm_num [Demo.find_similar_mementos, Demo.simList, Demo.cosineSim, Demo.dotProd,
      Demo.sumSq, sortDesc, insertDesc, pySlice, wGraph, wm1, wm2])

/-- C4 counterexample: with `top_k = -1 ≤ 0` on a two-memento store the
result is not empty — Python's negative slice drops only the last entry. -/
theorem c4_counterexample :
    (-1 : ℤ) ≤ 0 ∧
    Demo.find_similar_mementos (fun _ => .ok [1]) id wGraph "q" (-1) =
      .ok [(wm1, (1 : ℚ))] ∧
    ([(wm1, (1 : ℚ))] : List (Demo.Memento × ℚ)) ≠ [] := by
  refine ⟨by norm_num, ?_, by simp⟩
  norm_num [Demo.find_similar_mementos, Demo.simList, Demo.cosineSim, Demo.dotProd,
    Demo.sumSq, sortDesc, insertDesc, pySlice, wGraph, wm1, wm2]

/-- C4 amended: `find_similar_mementos` returns the Python slice `[:topK]`
of the ranked list: `topK = 0` yields the empty list, any `topK` at least
the number of scored mementos yields the whole ranked list, a non-negative
`topK` yields the first `min(topK, n)` entries, and a negative `topK`
follows Python negative-slice semantics, keeping the first `n - |topK|`
entries (clamped at zero) instead of yielding the empty list. -/
theorem c4_amended (embedder : String → Except String (List ℚ)) (rsqrt : ℚ → ℚ)
    (g : Demo.KnowledgeGraph) (query : String) (k : ℤ) (qe : List ℚ)
    (res : List (Demo.Memento × ℚ))
    (hq : embedder query = .ok qe)
    (hr : Demo.find_similar_mementos embedder rsqrt g query k = .ok res) :
    (k = 0 → res = []) ∧
    ((g.mementos.length : ℤ) ≤ k →
      res = sortDesc (fun p => p.2) (Demo.simList rsqrt qe g)) ∧
    (0 ≤ k → res.length = min k.toNat g.mementos.length) ∧
    (k < 0 → res.length = g.mementos.length - (-k).toNat) := by
  simp only [Demo.find_similar_mementos, hq, Except.ok.injEq] at hr
  subst hr
  have hlen : (sortDesc (fun p : Demo.Memento × ℚ => p.2) (Demo.simList rsqrt qe g)).length =
      g.mementos.length := by
    rw [sortDesc_length]
    simp [Demo.simList]
  refine ⟨?_, ?_, ?_, ?_⟩
  · rintro rfl
    simp [pySlice]
  · intro hk
    have h0 : (0 : ℤ) ≤ k := le_trans (Int.natCast_nonneg _) hk
    rw [pySlice, if_pos h0]
    apply List.take_of_length_le
    rw [hlen]
    omega
  · intro h0
    rw [pySlice, if_pos h0, List.length_take, hlen]
  · intro hneg
    rw [pySlice, if_neg (not_le.mpr hneg), List.length_take, hlen]
    omega

/-- C4 witness: the amended statement holds at a concrete store with
`top_k` larger than the corpus. -/
theorem c4_amended_witness :
    ((5 : ℤ) = 0 → [(wm1, (1 : ℚ)), (wm2, 1)] = []) ∧
    ((wGraph.mementos.length : ℤ) ≤ 5 →
      [(wm1, (1 : ℚ)), (wm2, 1)] = sortDesc (fun p => p.2) (Demo.simList id [1] wGraph)) ∧
    ((0 : ℤ) ≤ 5 → ([(wm1, (1 : ℚ)), (wm2, 1)]).length = min (5 : ℤ).toNat wGraph.mementos.length) ∧
    ((5 : ℤ) < 0 → ([(wm1, (1 : ℚ)), (wm2, 1)]).length = wGraph.mementos.length - (-(5 : ℤ)).toNat) :=
  c4_amended (fun _ => .ok [1]) id wGraph "q" 5 [1] [(wm1, 1), (wm2, 1)] rfl
    (by norm_num [Demo.find_similar_mementos, Demo.simList, Demo.cosineSim, Demo.dotProd,
      Demo.sumSq, sortDesc, insertDesc, pySlice, wGraph, wm1, wm2])

theorem toDigitsCore_succ (b fuel n : ℕ) (ds : List Char) :
    Nat.toDigitsCore b (fuel + 1) n ds =
      (if n / b = 0 then Nat.digitChar (n % b) :: ds
      else Nat.toDigitsCore b fuel (n / b) (Nat.digitChar (n % b) :: ds)) := rfl

theorem natDigits_of_lt {n : ℕ} (h : n < 10) : natDigits n = [n] := by
  rw [natDigits, if_pos h]

theorem natDigits_of_ge {n : ℕ} (h : ¬ n < 10) :
    natDigits n = natDigits (n / 10) ++ [n % 10] := by
  rw [natDigits, if_neg h]

theorem toDigitsCore_acc (b : ℕ) : ∀ (fuel n : ℕ) (acc : List Char),
    Nat.toDigitsCore b fuel n acc = Nat.toDigitsCore b fuel n [] ++ acc := by
  intro fuel
  induction fuel with
  | zero => intro n acc; simp [Nat.toDigitsCore]
  | succ f ih =>
    intro n acc
    rw [toDigitsCore_succ, toDigitsCore_succ]
    by_cases h : n / b = 0
    · simp [h]
    · rw [if_neg h, if_neg h, ih (n / b) (Nat.digitChar (n % b) :: acc),
        ih (n / b) [Nat.digitChar (n % b)]]
      simp

theorem toDigitsCore_eq_natDigits : ∀ fuel n, n ≤ fuel →
    Nat.toDigitsCore 10 (fuel + 1) n [] = (natDigits n).map Nat.digitChar := by
  intro fuel
  induction fuel with
  | zero =>
    intro n hn
    have h0 : n = 0 := Nat.le_zero.mp hn
    subst h0
    simp [Nat.toDigitsCore, natDigits_of_lt]
  | succ f ih =>
    intro n hn
    rw [toDigitsCore_succ]
    by_cases h : n / 10 = 0
    · have hlt : n < 10 := by omega
      rw [if_pos h, natDigits_of_lt hlt]
      simp [Nat.mod_eq_of_lt hlt]
    · have h10 : ¬ n < 10 := by omega
      have hdiv : n / 10 < n := Nat.div_lt_self (by omega) (by norm_num)
      rw [if_neg h, toDigitsCore_acc, ih (n / 10) (by omega), natDigits_of_ge h10]
      simp

theorem toDigits10_eq (n : ℕ) : Nat.toDigits 10 n = (natDigits n).map Nat.digitChar := by
  rw [Nat.toDigits]
  exact toDigitsCore_eq_natDigits n n le_rfl

theorem natDigits_ne_nil (n : ℕ) : natDigits n ≠ [] := by
  by_cases h : n < 10
  · rw [natDigits_of_lt h]; simp
  · rw [natDigits_of_ge h]; simp

theorem natDigits_lt_ten (n : ℕ) : ∀ d ∈ natDigits n, d < 10 := by
  induction n using Nat.strong_induction_on with
  | _ n ih =>
    by_cases h : n < 10
    · rw [natDigits_of_lt h]
      intro d hd
      simp only [List.mem_singleton] at hd
      omega
    · rw [natDigits_of_ge h]
      intro d hd
      rw [List.mem_append] at hd
      rcases hd with hd | hd
      · exact ih (n / 10) (Nat.div_lt_self (by omega) (by norm_num)) d hd
      · simp only [List.mem_singleton] at hd
        subst hd
        exact Nat.mod_lt _ (by norm_num)

theorem natDigits_inj : ∀ a b : ℕ, natDigits a = natDigits b → a = b := by
  intro a
  induction a using Nat.strong_induction_on with
  | _ a ih =>
    intro b h
    by_cases ha : a < 10 <;> by_cases hb : b < 10
    · rw [natDigits_of_lt ha, natDigits_of_lt hb] at h
      simpa using h
    · rw [natDigits_of_lt ha, natDigits_of_ge hb] at h
      have hlen := congrArg List.length h
      have hne := natDigits_ne_nil (b / 10)
      cases hd : natDigits (b / 10) with
      | nil => exact absurd hd hne
      | cons x xs =>
        rw [hd] at hlen
        simp at hlen
    · rw [natDigits_of_ge ha, natDigits_of_lt hb] at h
      have hlen := congrArg List.length h
      have hne := natDigits_ne_nil (a / 10)
      cases hd : natDigits (a / 10) with
      | nil => exact absurd hd hne
      | cons x xs =>
        rw [hd] at hlen
        simp at hlen
    · rw [natDigits_of_ge ha, natDigits_of_ge hb] at h
      obtain ⟨h1, h2⟩ := List.append_inj' h (by simp)
      simp only [List.cons.injEq, and_true] at h2
      have hdiv := ih (a / 10) (Nat.div_lt_self (by omega) (by norm_num)) (b / 10) h1
      omega

theorem digitChar_inj_lt :
    ∀ a < 10, ∀ b < 10, Nat.digitChar a = Nat.digitChar b → a = b := by decide

theorem map_digitChar_inj : ∀ (l1 l2 : List ℕ), (∀ d ∈ l1, d < 10) → (∀ d ∈ l2, d < 10) →
    l1.map Nat.digitChar = l2.map Nat.digitChar → l1 = l2 := by
  intro l1
  induction l1 with
  | nil =>
    intro l2 _ _ h
    cases l2 with
    | nil => rfl
    | cons y ys => simp at h
  | cons x xs ih =>
    intro l2 h1 h2 h
    cases l2 with
    | nil => simp at h
    | cons y ys =>
      simp only [List.map_cons, List.cons.injEq] at h
      have hx : x < 10 := h1 x (List.mem_cons_self x xs)
      have hy : y < 10 := h2 y (List.mem_cons_self y ys)
      have hxy : x = y := digitChar_inj_lt x hx y hy h.1
      subst hxy
      rw [ih ys (fun d hd => h1 d (List.mem_cons_of_mem _ hd))
        (fun d hd => h2 d (List.mem_cons_of_mem _ hd)) h.2]

theorem natRepr_inj {a b : ℕ} (h : Nat.repr a = Nat.repr b) : a = b := by
  rw [Nat.repr, Nat.repr] at h
  have hd : Nat.toDigits 10 a = Nat.toDigits 10 b := congrArg String.data h
  rw [toDigits10_eq, toDigits10_eq] at hd
  exact natDigits_inj a b
    (map_digitChar_inj _ _ (natDigits_lt_ten a) (natDigits_lt_ten b) hd)

theorem mId_inj {a b : ℕ} (h : "m" ++ Nat.repr a = "m" ++ Nat.repr b) : a = b := by
  apply natRepr_inj
  have hd := congrArg String.data h
  rw [String.data_append, String.data_append] at hd
  exact String.ext (List.append_cancel_left hd)

theorem dictSet_fresh {α : Type} {k : String} {d : List (String × α)} (v : α)
    (h : k ∉ dictKeys d) : dictSet k v d = d ++ [(k, v)] := by
  induction d with
  | nil => rfl
  | cons hd tl ih =>
    obtain ⟨k', v'⟩ := hd
    simp only [dictKeys, List.map_cons, List.mem_cons] at h
    push_neg at h
    simp only [dictSet, if_neg (fun hc : k' = k => h.1 hc.symm)]
    rw [ih (by simpa [dictKeys] using h.2)]
    simp

theorem runAdds_keys (embedder : String → Except String (List ℚ)) :
    ∀ (items : List (String × String)) (g0 g : Demo.KnowledgeGraph),
    dictKeys g0.mementos =
      (List.range g0.mementos.length).map (fun i => "m" ++ Nat.repr (i + 1)) →
    Demo.runAdds embedder g0 items = some g →
    dictKeys g.mementos =
      (List.range g.mementos.length).map (fun i => "m" ++ Nat.repr (i + 1)) ∧
    g.mementos.length = g0.mementos.length + items.length := by
  intro items
  induction items with
  | nil =>
    intro g0 g hk hrun
    simp only [Demo.runAdds, Option.some.injEq] at hrun
    subst hrun
    exact ⟨hk, by simp⟩
  | cons item rest ih =>
    intro g0 g hk hrun
    obtain ⟨c, t⟩ := item
    cases he : embedder c with
    | error e => simp [Demo.runAdds, Demo.add_memento, he] at hrun
    | ok emb =>
      have hfresh : ("m" ++ Nat.repr (g0.mementos.length + 1)) ∉ dictKeys g0.mementos := by
        rw [hk]
        intro hmem
        rw [List.mem_map] at hmem
        obtain ⟨i, hi, heq⟩ := hmem
        rw [List.mem_range] at hi
        have := mId_inj heq
        omega
      simp only [Demo.runAdds, Demo.add_memento, he] at hrun
      have hset := dictSet_fresh
        (⟨"m" ++ Nat.repr (g0.mementos.length + 1), c, t, emb⟩ : Demo.Memento) hfresh
      have hk' : dictKeys (dictSet ("m" ++ Nat.repr (g0.mementos.length + 1))
          (⟨"m" ++ Nat.repr (g0.mementos.length + 1), c, t, emb⟩ : Demo.Memento)
          g0.mementos) =
          (List.range (dictSet ("m" ++ Nat.repr (g0.mementos.length + 1))
            (⟨"m" ++ Nat.repr (g0.mementos.length + 1), c, t, emb⟩ : Demo.Memento)
            g0.mementos).length).map (fun i => "m" ++ Nat.repr (i + 1)) := by
        rw [hset]
        simp only [List.length_append, List.length_singleton, dictKeys, List.map_append]
        rw [List.range_succ]
        simp only [List.map_append, List.map_singleton]
        rw [← hk]
        rfl
      obtain ⟨h1, h2⟩ := ih _ g hk' hrun
      refine ⟨h1, ?_⟩
      rw [h2, hset]
      simp
      omega

/-- C5: for every sequence of `add_memento` calls on a fresh store, the
assigned ids are deterministic and sequential: the memento at insertion
position `i` carries id `m<i+1>` (so ids follow strictly increasing numeric
suffixes 1, 2, …, n and are never reused), and no two stored mementos share
an id. -/
theorem c5_sequential_ids (embedder : String → Except String (List ℚ))
    (items : List (String × String)) (g : Demo.KnowledgeGraph)
    (h : Demo.runAdds embedder Demo.KnowledgeGraph.empty items = some g) :
    dictKeys g.mementos =
      (List.range items.length).map (fun i => "m" ++ Nat.repr (i + 1)) ∧
    (dictKeys g.mementos).Nodup := by
  obtain ⟨hk, hl⟩ := runAdds_keys embedder items Demo.KnowledgeGraph.empty g
    (by simp [Demo.KnowledgeGraph.empty, dictKeys]) h
  have hlen : g.mementos.length = items.length := by
    simpa [Demo.KnowledgeGraph.empty] using hl
  refine ⟨by rw [hk, hlen], ?_⟩
  rw [hk]
  refine List.Nodup.map ?_ (List.nodup_range _)
  intro a b hab
  have := mId_inj hab
  omega

/-- C5 witness: two concrete insertions receive ids `m1`, `m2`, distinct. -/
theorem c5_sequential_ids_witness :
    dictKeys wGraph.mementos =
      (List.range ([("alpha", "t1"), ("beta", "t2")] : List (String × String)).length).map
        (fun i => "m" ++ Nat.repr (i + 1)) ∧
    (dictKeys wGraph.mementos).Nodup :=
  c5_sequential_ids (fun _ => .ok [1]) [("alpha", "t1"), ("beta", "t2")] wGraph rfl

/-- C9 counterexample: in the Cypher load script, an entity property value
containing a double quote is emitted verbatim (the unescaped line appears in
the output and the escaped variant does not), while memento content is
escaped — so not every string property value is quote-escaped. -/
theorem c9_counterexample :
    ("  note: \"say \"hi\"\"" ∈ Proto.cypherLines wqGraph) ∧
    ("  note: \"say \\\"hi\\\"\"" ∉ Proto.cypherLines wqGraph) ∧
    ("  content: \"has \\\"quote\\\"\"," ∈ Proto.cypherLines wqGraph) := by
  refine ⟨?_, ?_, ?_⟩ <;> decide

/-- C9 amended: only memento content is quote-escaped in the Cypher script;
entity (and relationship) property values are emitted verbatim, so a double
quote inside a property value produces an unescaped quote inside the emitted
statement. -/
theorem c9_amended (g : Proto.KnowledgeGraph) (m : Proto.Memento) (e : Proto.Entity)
    (hm : m ∈ g.mementos) (he : e ∈ g.entities.map Prod.snd) :
    ("  content: \"" ++ Proto.escapeQuotes m.content ++ "\",") ∈ Proto.cypherLines g ∧
    ("  " ++ Proto.propsRender e.properties) ∈ Proto.cypherLines g := by
  have h1 : ("  content: \"" ++ Proto.escapeQuotes m.content ++ "\",") ∈
      g.mementos.flatMap Proto.mementoLines :=
    List.mem_flatMap.mpr ⟨m, hm, by simp [Proto.mementoLines]⟩
  have h2 : ("  " ++ Proto.propsRender e.properties) ∈
      (g.entities.map Prod.snd).flatMap Proto.entityLines :=
    List.mem_flatMap.mpr ⟨e, he, by simp [Proto.entityLines]⟩
  constructor <;>
  · simp only [Proto.cypherLines, List.mem_append]
    tauto

/-- C9 witness: the amended statement holds at the concrete fixture store. -/
theorem c9_amended_witness :
    ("  content: \"" ++ Proto.escapeQuotes wqMemento.content ++ "\",") ∈
      Proto.cypherLines wqGraph ∧
    ("  " ++ Proto.propsRender wqEntity.properties) ∈ Proto.cypherLines wqGraph :=
  c9_amended wqGraph wqMemento wqEntity (by simp [wqGraph])
    (by simp [wqGraph, wqEntity])

theorem proto_foldl_add_memento (ms : List Proto.Memento) :
    ∀ g : Proto.KnowledgeGraph, ms.foldl Proto.add_memento g =
      { g with mementos := g.mementos ++ ms } := by
  induction ms with
  | nil => intro g; simp
  | cons m rest ih =>
    intro g
    rw [List.foldl_cons, ih]
    simp [Proto.add_memento]

theorem proto_foldl_add_relationship (rs : List Proto.Relationship) :
    ∀ g : Proto.KnowledgeGraph, rs.foldl Proto.add_relationship g =
      { g with relationships := g.relationships ++ rs } := by
  induction rs with
  | nil => intro g; simp
  | cons r rest ih =>
    intro g
    rw [List.foldl_cons, ih]
    simp [Proto.add_relationship]

theorem proto_foldl_add_entity (es : List Proto.Entity) :
    ∀ g : Proto.KnowledgeGraph,
    (∀ e ∈ es, e.id ∉ dictKeys g.entities) →
    (es.map (fun e => e.id)).Nodup →
    es.foldl Proto.add_entity g =
      { g with entities := g.entities ++ es.map (fun e => (e.id, e)) } := by
  induction es with
  | nil => intro g _ _; simp
  | cons e rest ih =>
    intro g hfr hnd
    rw [List.foldl_cons]
    have h1 : Proto.add_entity g e = { g with entities := g.entities ++ [(e.id, e)] } := by
      rw [Proto.add_entity, dictSet_fresh e (hfr e (List.mem_cons_self e rest))]
    rw [h1, ih _ ?_ ?_]
    · simp
    · intro e' he'
      have hfr' := hfr e' (List.mem_cons_of_mem e he')
      simp only [List.map_cons, List.nodup_cons] at hnd
      simp only [dictKeys, List.map_append, List.mem_append, List.map_cons, List.map_nil,
        List.mem_singleton, List.not_mem_nil, or_false]
      push_neg
      refine ⟨by simpa [dictKeys] using hfr', ?_⟩
      intro hc
      exact hnd.1 (hc ▸ List.mem_map.mpr ⟨e', he', rfl⟩)
    · simp only [List.map_cons, List.nodup_cons] at hnd
      exact hnd.2

theorem bucketAppend_fresh {k : String} (c : String) {h : List (String × List String)}
    (hk : k ∉ h.map Prod.fst) : bucketAppend k c h = h ++ [(k, [c])] := by
  induction h with
  | nil => rfl
  | cons hd tl ih =>
    obtain ⟨k', l⟩ := hd
    simp only [List.map_cons, List.mem_cons] at hk
    push_neg at hk
    simp only [bucketAppend, if_neg (fun hc : k' = k => hk.1 hc.symm)]
    rw [ih hk.2]
    simp

theorem bucketAppend_last (k c : String) : ∀ (h : List (String × List String)) (l : List String),
    k ∉ h.map Prod.fst →
    bucketAppend k c (h ++ [(k, l)]) = h ++ [(k, l ++ [c])] := by
  intro h
  induction h with
  | nil => intro l _; simp [bucketAppend]
  | cons hd tl ih =>
    intro l hk
    obtain ⟨k', l'⟩ := hd
    simp only [List.map_cons, List.mem_cons] at hk
    push_neg at hk
    simp only [List.cons_append, bucketAppend, if_neg (fun hc : k' = k => hk.1 hc.symm),
      List.append_eq]
    rw [ih l hk.2]

theorem foldl_bucketAppend_rest (k : String) (cs : List String) :
    ∀ (pre : List (String × List String)) (l : List String), k ∉ pre.map Prod.fst →
    cs.foldl (fun h c => bucketAppend k c h) (pre ++ [(k, l)]) = pre ++ [(k, l ++ cs)] := by
  induction cs with
  | nil => intro pre l _; simp
  | cons c cs' ih =>
    intro pre l hk
    rw [List.foldl_cons, bucketAppend_last k c pre l hk, ih pre (l ++ [c]) hk]
    simp

theorem foldl_bucketAppend_fresh (k : String) (cs : List String)
    (h : List (String × List String)) (hk : k ∉ h.map Prod.fst) (hcs : cs ≠ []) :
    cs.foldl (fun h c => bucketAppend k c h) h = h ++ [(k, cs)] := by
  cases cs with
  | nil => exact absurd rfl hcs
  | cons c cs' =>
    rw [List.foldl_cons, bucketAppend_fresh c hk, foldl_bucketAppend_rest k cs' h [c] hk]
    rfl

theorem foldl_add_hier_children (k : String) (cs : List String) :
    ∀ g : Proto.KnowledgeGraph,
    cs.foldl (fun g c => Proto.add_hierarchy g k c) g =
      { g with hierarchy := cs.foldl (fun h c => bucketAppend k c h) g.hierarchy } := by
  induction cs with
  | nil => intro g; simp
  | cons c cs' ih =>
    intro g
    rw [List.foldl_cons, List.foldl_cons, ih]
    rfl

theorem proto_foldl_hierarchy (pairs : List (String × List String)) :
    ∀ g : Proto.KnowledgeGraph,
    (pairs.map Prod.fst).Nodup →
    (∀ p ∈ pairs, p.2 ≠ []) →
    (∀ p ∈ pairs, p.1 ∉ g.hierarchy.map Prod.fst) →
    pairs.foldl (fun g p => p.2.foldl (fun g c => Proto.add_hierarchy g p.1 c) g) g =
      { g with hierarchy := g.hierarchy ++ pairs } := by
  induction pairs with
  | nil => intro g _ _ _; simp
  | cons p rest ih =>
    intro g hnd hne hdisj
    obtain ⟨k, cs⟩ := p
    simp only [List.map_cons, List.nodup_cons] at hnd
    rw [List.foldl_cons, foldl_add_hier_children,
      foldl_bucketAppend_fresh k cs g.hierarchy (hdisj _ (List.mem_cons_self _ _))
        (hne _ (List.mem_cons_self _ _)),
      ih _ hnd.2 (fun p hp => hne p (List.mem_cons_of_mem _ hp)) ?_]
    · simp
    · intro p' hp'
      simp only [List.map_append, List.mem_append, List.map_cons, List.map_nil,
        List.mem_singleton, List.not_mem_nil, or_false]
      push_neg
      refine ⟨hdisj p' (List.mem_cons_of_mem _ hp'), ?_⟩
      intro hc
      exact hnd.1 (hc ▸ List.mem_map.mpr ⟨p', hp', rfl⟩)

theorem ingest_to_json (g : Proto.KnowledgeGraph)
    (hids : ∀ p ∈ g.entities, p.1 = p.2.id)
    (hnd : (dictKeys g.entities).Nodup)
    (hbne : ∀ p ∈ g.hierarchy, p.2 ≠ [])
    (hhnd : (g.hierarchy.map Prod.fst).Nodup) :
    Proto.ingest (Proto.to_json g) = g := by
  have hes_ids : (g.entities.map Prod.snd).map (fun e => e.id) = dictKeys g.entities := by
    rw [List.map_map]
    exact List.map_congr_left (fun p hp => (hids p hp).symm)
  have hes_pairs : (g.entities.map Prod.snd).map (fun e => (e.id, e)) = g.entities := by
    rw [List.map_map]
    have hid : ∀ p ∈ g.entities, ((fun e => (e.id, e)) ∘ Prod.snd) p = id p := by
      intro p hp
      simp only [Function.comp_apply, id_eq, ← hids p hp]
    rw [List.map_congr_left hid, List.map_id]
  simp only [Proto.ingest, Proto.to_json]
  rw [proto_foldl_add_memento,
    proto_foldl_add_entity _ _ (by simp [dictKeys, Proto.KnowledgeGraph.empty])
      (by rw [hes_ids]; exact hnd),
    proto_foldl_add_relationship,
    proto_foldl_hierarchy _ _ hhnd hbne (by simp [Proto.KnowledgeGraph.empty]),
    hes_pairs]
  simp [Proto.KnowledgeGraph.empty]

/-- C6: the structured export is stable under round-trip.  For every store
satisfying the construction invariants (entity dict keyed by entity id with
distinct keys; hierarchy buckets non-empty with distinct keys — all
guaranteed by the mutation API), re-ingesting the parsed export into a
fresh store and re-rendering yields an export document equal to the first;
since `json.dumps` with a fixed indent is deterministic, equal documents
serialize to byte-identical text. -/
theorem c6_round_trip (g : Proto.KnowledgeGraph)
    (hids : ∀ p ∈ g.entities, p.1 = p.2.id)
    (hnd : (dictKeys g.entities).Nodup)
    (hbne : ∀ p ∈ g.hierarchy, p.2 ≠ [])
    (hhnd : (g.hierarchy.map Prod.fst).Nodup) :
    Proto.to_json (Proto.ingest (Proto.to_json g)) = Proto.to_json g := by
  rw [ingest_to_json g hids hnd hbne hhnd]

/-- C6 witness: the round trip is the identity on a concrete populated
store. -/
theorem c6_round_trip_witness :
    Proto.to_json (Proto.ingest (Proto.to_json wpGraph)) = Proto.to_json wpGraph :=
  c6_round_trip wpGraph (by decide) (by decide) (by decide) (by decide)
